import Mathlib

/-!
# Verification of the leaflet dashboard generators

Shallow embedding of the column-type inference, chart-configuration
generation and typed-array encoding code of the repository:

* `src/data_loader.py` (generic loader, `DataExplorerConfig`),
* `src/iterations/v4-focused/data_loader.py` (`SimpleDataLoader`),
* `src/iterations/v5-production/data_loader.py` (`load_and_generate`),
* `src/builds/Iter 36 - final with stats/build_dashboard.py`
  (`encode_typed_array`, `process_arrow_file`, and the JavaScript
  `decodeTypedArray` embedded in `create_dashboard_html`).

Numeric cell values are modelled as rationals (`ℚ`): the Python code only
compares them, takes minima/maxima, counts distinct values and tests
integrality, and on the IEEE doubles pandas stores all of those operations
agree with the rational ones.  `float32` array elements are modelled by
their 32-bit patterns, which is exact for the byte-level round trip.
-/

namespace Leaflet

/-! ## Generic list utilities mirroring pandas / numpy primitives -/

/-- Distinct values of a list in order of first appearance.
Mirrors `pandas.Series.unique` / `pyarrow.compute.unique`. -/
def uniqList {α : Type} [DecidableEq α] : List α → List α
  | [] => []
  | x :: xs => x :: (uniqList xs).filter (fun y => y ≠ x)

/-- Number of distinct values of a list. Mirrors `pandas.Series.nunique`
(the series is assumed already free of nulls where this is used). -/
def uniqCount {α : Type} [DecidableEq α] (l : List α) : Nat :=
  (uniqList l).length

/-- Minimum of a list of rationals, `none` on the empty list
(pandas `Series.min()` is NaN on an empty series, and every comparison
with NaN is false, which the `Option` forces the caller to reproduce). -/
def listMinQ : List ℚ → Option ℚ
  | [] => none
  | x :: xs =>
    match listMinQ xs with
    | none => some x
    | some m => some (min x m)

/-- Maximum of a list of rationals, `none` on the empty list. -/
def listMaxQ : List ℚ → Option ℚ
  | [] => none
  | x :: xs =>
    match listMaxQ xs with
    | none => some x
    | some m => some (max x m)

theorem mem_uniqList {α : Type} [DecidableEq α] (l : List α) (x : α) :
    x ∈ uniqList l ↔ x ∈ l := by
  induction l with
  | nil => simp [uniqList]
  | cons a as ih =>
    simp only [uniqList, List.mem_cons, List.mem_filter]
    constructor
    · rintro (rfl | ⟨hx, _⟩)
      · exact Or.inl rfl
      · exact Or.inr (ih.mp hx)
    · rintro (rfl | hx)
      · exact Or.inl rfl
      · by_cases hxa : x = a
        · exact Or.inl hxa
        · exact Or.inr ⟨ih.mpr hx, by simpa using hxa⟩

theorem listMinQ_eq_none_iff (l : List ℚ) : listMinQ l = none ↔ l = [] := by
  cases l with
  | nil => simp [listMinQ]
  | cons x xs => cases hm : listMinQ xs <;> simp [listMinQ, hm]

theorem listMaxQ_eq_none_iff (l : List ℚ) : listMaxQ l = none ↔ l = [] := by
  cases l with
  | nil => simp [listMaxQ]
  | cons x xs => cases hm : listMaxQ xs <;> simp [listMaxQ, hm]

theorem listMinQ_isSome {l : List ℚ} (h : l ≠ []) : ∃ m, listMinQ l = some m := by
  cases hm : listMinQ l with
  | none => exact absurd ((listMinQ_eq_none_iff l).mp hm) h
  | some m => exact ⟨m, rfl⟩

theorem listMaxQ_isSome {l : List ℚ} (h : l ≠ []) : ∃ m, listMaxQ l = some m := by
  cases hm : listMaxQ l with
  | none => exact absurd ((listMaxQ_eq_none_iff l).mp hm) h
  | some m => exact ⟨m, rfl⟩

theorem listMinQ_le {l : List ℚ} {m : ℚ} (h : listMinQ l = some m) :
    ∀ x ∈ l, m ≤ x := by
  induction l generalizing m with
  | nil => simp [listMinQ] at h
  | cons a as ih =>
    intro x hx
    simp only [listMinQ] at h
    cases hm : listMinQ as with
    | none =>
      rw [hm] at h
      have has : as = [] := (listMinQ_eq_none_iff as).mp hm
      subst has
      have hxa : x = a := by simpa using hx
      have hma : m = a := by simpa using h.symm
      rw [hxa, hma]
    | some m0 =>
      rw [hm] at h
      have hem : m = min a m0 := by simpa using h.symm
      cases List.mem_cons.mp hx with
      | inl h1 => subst h1; rw [hem]; exact min_le_left _ _
      | inr h2 =>
        calc m ≤ m0 := by rw [hem]; exact min_le_right _ _
          _ ≤ x := ih hm x h2

theorem listMaxQ_ge {l : List ℚ} {m : ℚ} (h : listMaxQ l = some m) :
    ∀ x ∈ l, x ≤ m := by
  induction l generalizing m with
  | nil => simp [listMaxQ] at h
  | cons a as ih =>
    intro x hx
    simp only [listMaxQ] at h
    cases hm : listMaxQ as with
    | none =>
      rw [hm] at h
      have has : as = [] := (listMaxQ_eq_none_iff as).mp hm
      subst has
      have hxa : x = a := by simpa using hx
      have hma : m = a := by simpa using h.symm
      rw [hxa, hma]
    | some m0 =>
      rw [hm] at h
      have hem : m = max a m0 := by simpa using h.symm
      cases List.mem_cons.mp hx with
      | inl h1 => subst h1; rw [hem]; exact le_max_left _ _
      | inr h2 =>
        calc x ≤ m0 := ih hm x h2
          _ ≤ m := by rw [hem]; exact le_max_right _ _

theorem listMinQ_mem {l : List ℚ} {m : ℚ} (h : listMinQ l = some m) : m ∈ l := by
  induction l generalizing m with
  | nil => simp [listMinQ] at h
  | cons a as ih =>
    simp only [listMinQ] at h
    cases hm : listMinQ as with
    | none =>
      rw [hm] at h
      exact List.mem_cons.mpr (Or.inl (by simpa using h.symm))
    | some m0 =>
      rw [hm] at h
      have hem : m = min a m0 := by simpa using h.symm
      rcases min_choice a m0 with hc | hc
      · exact List.mem_cons.mpr (Or.inl (by rw [hem, hc]))
      · exact List.mem_cons.mpr (Or.inr (by rw [hem, hc]; exact ih hm))

theorem listMaxQ_mem {l : List ℚ} {m : ℚ} (h : listMaxQ l = some m) : m ∈ l := by
  induction l generalizing m with
  | nil => simp [listMaxQ] at h
  | cons a as ih =>
    simp only [listMaxQ] at h
    cases hm : listMaxQ as with
    | none =>
      rw [hm] at h
      exact List.mem_cons.mpr (Or.inl (by simpa using h.symm))
    | some m0 =>
      rw [hm] at h
      have hem : m = max a m0 := by simpa using h.symm
      rcases max_choice a m0 with hc | hc
      · exact List.mem_cons.mpr (Or.inl (by rw [hem, hc]))
      · exact List.mem_cons.mpr (Or.inr (by rw [hem, hc]; exact ih hm))

/-! ## Model of pandas series and dataframes

A pandas `Series` is modelled by its dtype together with its stored
values.  Integer and boolean series cannot hold nulls; float, datetime
and object series can (a NaN / NaT / None cell is `Option.none`).
Numeric cell values are rationals, booleans are coerced to `0`/`1` when
a numeric view is taken, exactly as numpy does. -/

/-- The numeric dtypes distinguished by the loaders: the v4/v5
inferencers test membership of the dtype in `['int64', 'int32']`,
and pandas treats `bool` as a numeric but not integer dtype. -/
inductive NumKind : Type
  | int64
  | int32
  | float64
  | boolKind
deriving DecidableEq, Repr

/-- A pandas series as stored in a dataframe (nulls included). -/
inductive PdSeries : Type
  | ints (k : NumKind) (vals : List Int)
  | floats (vals : List (Option ℚ))
  | bools (vals : List Bool)
  | dts (vals : List (Option Int))
  | objs (vals : List (Option String))
  | otherDtype (vals : List (Option String))
deriving DecidableEq, Repr

/-- A series after `dropna()`: same dtype, nulls removed.  All numeric
dtypes are collapsed into `num` carrying the `NumKind`, since the
inference code only looks at the dtype name and at the values. -/
inductive CleanSeries : Type
  | num (k : NumKind) (vals : List ℚ)
  | objs (vals : List String)
  | dts (vals : List Int)
  | miscStr (vals : List String)
deriving DecidableEq, Repr

/-- Embeds `Series.dropna()`. -/
def dropnaSeries : PdSeries → CleanSeries
  | .ints k vals => .num k (vals.map (fun v => (v : ℚ)))
  | .floats vals => .num .float64 (vals.filterMap id)
  | .bools vals => .num .boolKind (vals.map (fun b => if b then (1 : ℚ) else 0))
  | .dts vals => .dts (vals.filterMap id)
  | .objs vals => .objs (vals.filterMap id)
  | .otherDtype vals => .miscStr (vals.filterMap id)

/-- Number of non-null values of a clean series (`len(values)`). -/
def cleanLen : CleanSeries → Nat
  | .num _ vals => vals.length
  | .objs vals => vals.length
  | .dts vals => vals.length
  | .miscStr vals => vals.length

/-- A pandas dataframe: named columns in order. -/
structure PdDataFrame : Type where
  cols : List (String × PdSeries)
deriving DecidableEq, Repr

/-- Embeds `df.columns`. -/
def PdDataFrame.names (df : PdDataFrame) : List String :=
  df.cols.map Prod.fst

/-! ## Time-pattern matchers

The regexes used by the loaders, compiled by hand to total matchers
over the character list of the string:

* v4 uses `^\d{1,2}:\d{2}(:\d{2})?$`,
* the generic loader additionally allows a fractional-second suffix:
  `^\d{1,2}:\d{2}(:\d{2})?(\.\d+)?$`, plus the two subsumed patterns
  `^\d{1,2}:\d{2}$` and `^\d{1,2}:\d{2}:\d{2}$`.

The regex alternatives are disjoint on their first character, so the
deterministic matchers below agree with backtracking semantics. -/

/-- Regex `(\.\d+)?$`: either end of string, or a dot followed by one or more
digits up to the end. -/
def matchFracOpt : List Char → Bool
  | [] => true
  | '.' :: rest => !rest.isEmpty && rest.all (fun c => c.isDigit)
  | _ => false

/-- Regex `(:\d{2})?$`: either end of string, or a colon and two digits. -/
def matchSecOpt : List Char → Bool
  | [] => true
  | ':' :: s1 :: s2 :: [] => s1.isDigit && s2.isDigit
  | _ => false

/-- Regex `(:\d{2})?(\.\d+)?$`. -/
def matchSecFracOpt : List Char → Bool
  | ':' :: s1 :: s2 :: rest => s1.isDigit && s2.isDigit && matchFracOpt rest
  | rest => matchFracOpt rest

/-- Regex `^\d{1,2}:` followed by `\d{2}` and then `k` applied to the tail:
common prefix of all the time patterns. -/
def matchHourMin (k : List Char → Bool) : List Char → Bool
  | d1 :: ':' :: m1 :: m2 :: rest =>
      d1.isDigit && m1.isDigit && m2.isDigit && k rest
  | d1 :: d2 :: ':' :: m1 :: m2 :: rest =>
      d1.isDigit && d2.isDigit && m1.isDigit && m2.isDigit && k rest
  | _ => false

/-- v4's `^\d{1,2}:\d{2}(:\d{2})?$`. -/
def matchTimeV4 (s : String) : Bool :=
  matchHourMin matchSecOpt s.toList

/-- Generic loader pattern 1: `^\d{1,2}:\d{2}(:\d{2})?(\.\d+)?$`. -/
def matchTimeP1 (s : String) : Bool :=
  matchHourMin matchSecFracOpt s.toList

/-- Generic loader pattern 2: `^\d{1,2}:\d{2}$`. -/
def matchTimeP2 (s : String) : Bool :=
  matchHourMin List.isEmpty s.toList

/-- Generic loader pattern 3: `^\d{1,2}:\d{2}:\d{2}$`. -/
def matchTimeP3 (s : String) : Bool :=
  matchHourMin (fun rest =>
    match rest with
    | ':' :: s1 :: s2 :: [] => s1.isDigit && s2.isDigit
    | _ => false) s.toList

/-! ## Column-type inference

`v4InferType` embeds `SimpleDataLoader._infer_type` of
`src/iterations/v4-focused/data_loader.py` (its argument is the
column's `dropna()`-ed values, as passed by `_infer_columns`).

`v5InferType` embeds the inference loop body of `load_and_generate` in
`src/iterations/v5-production/data_loader.py`.

`inferColumnType` embeds the per-column branch of
`DataExplorerConfig._infer_column_types` in `src/data_loader.py`. -/

/-- The shared shape of the angle test
`values.min() >= 0 and values.max() <= 360 and nunique > thresh`
(v4 uses `thresh = 10` on `len(sample.unique())`, v5 uses
`thresh = 20` on `values.nunique()`).  An empty list gives NaN
min/max in pandas and the comparison is then false. -/
def angleCheck (thresh : Nat) (vals : List ℚ) : Bool :=
  (match listMinQ vals, listMaxQ vals with
   | some mn, some mx => decide (0 ≤ mn) && decide (mx ≤ 360)
   | _, _ => false) && decide (thresh < uniqCount vals)

/-- Embeds `(sample % 1 == 0).all()`: every value is integral.  numpy's mod of
a float by 1 is zero exactly when the value is an integer (also for
negative values, since numpy mod takes the divisor's sign). -/
def allIntegral (vals : List ℚ) : Bool :=
  vals.all (fun x => x.den = 1)

/-- Embeds `SimpleDataLoader._infer_type(values)` (v4).  `sample` is
`values.head(1000)`.  The time test fires when strictly more than 80%
of the sample matches the time regex; `len(sample) * 0.8` rounds to the
exact rational value for every sample size ≤ 1000, so the float
comparison coincides with `5 * matches > 4 * len`. -/
def v4InferType (s : CleanSeries) : String :=
  match s with
  | .objs vals =>
    let sample := vals.take 1000
    if 4 * sample.length < 5 * (sample.countP matchTimeV4) then "time"
    else if uniqCount sample ≤ 20 then "string"
    else "string"
  | .num k vals =>
    let sample := vals.take 1000
    if angleCheck 10 sample then "angle"
    else if k = .int64 || k = .int32 || allIntegral sample then "integer"
    else "number"
  | .dts _ => "string"
  | .miscStr _ => "string"

/-- The inference branch of `load_and_generate` (v5), applied to the
non-null values of a column (the caller skips empty columns).  Unlike
v4 there is no sampling, no time detection, the angle threshold is
`nunique() > 20`, and any non-numeric non-object dtype falls back to
`'number'`. -/
def v5InferType (s : CleanSeries) : String :=
  match s with
  | .num k vals =>
    if angleCheck 20 vals then "angle"
    else if k = .int64 || k = .int32 || allIntegral vals then "integer"
    else "number"
  | .objs vals =>
    if uniqCount vals ≤ 20 then "string" else "number"
  | .dts _ => "number"
  | .miscStr _ => "number"

/-- The inference loops of v4 (`_infer_columns`) and v5 share this
shape: drop nulls, skip columns with no non-null values, and infer a
type for the rest.  Returns the association list column → type in
column order (Python dict preserves insertion order). -/
def inferColumnsWith (infer : CleanSeries → String) (df : PdDataFrame) :
    List (String × String) :=
  df.cols.filterMap (fun p =>
    let c := dropnaSeries p.2
    if cleanLen c = 0 then none else some (p.1, infer c))

/-- The `columns` dict built by v5's `load_and_generate`. -/
def v5InferColumns (df : PdDataFrame) : List (String × String) :=
  inferColumnsWith v5InferType df

/-! ### The generic loader (`src/data_loader.py`) -/

/-- Embeds `pd.api.types.is_numeric_dtype` (true for int, float and bool dtypes). -/
def isNumericDtype : PdSeries → Bool
  | .ints _ _ => true
  | .floats _ => true
  | .bools _ => true
  | _ => false

/-- Embeds `pd.api.types.is_integer_dtype` (false for bool and float dtypes). -/
def isIntegerDtype : PdSeries → Bool
  | .ints _ _ => true
  | _ => false

/-- Embeds `pd.api.types.is_datetime64_any_dtype`. -/
def isDatetimeDtype : PdSeries → Bool
  | .dts _ => true
  | _ => false

/-- Embeds `pd.api.types.is_string_dtype` (true for the object dtype). -/
def isStringDtype : PdSeries → Bool
  | .objs _ => true
  | _ => false

/-- Embeds `DataExplorerConfig._is_time_column(series)`: false on an empty
series or an all-null one; otherwise true when the first 100 non-null
values all match one of the three time regexes. -/
def isTimeColumn (s : PdSeries) : Bool :=
  match s with
  | .objs vals =>
    if vals.length = 0 then false
    else
      let sample := (vals.filterMap id).take 100
      if sample.length = 0 then false
      else
        sample.all matchTimeP1 || sample.all matchTimeP2 || sample.all matchTimeP3
  | _ => false

/-- The per-column branch of `DataExplorerConfig._infer_column_types`. -/
def inferColumnType (s : PdSeries) : String :=
  if isNumericDtype s then
    if isIntegerDtype s then "integer" else "number"
  else if isDatetimeDtype s then "time"
  else if isStringDtype s then
    if isTimeColumn s then "time" else "string"
  else "string"

/-- Embeds `DataExplorerConfig._infer_column_types(df)`. -/
def inferColumnTypes (df : PdDataFrame) : List (String × String) :=
  df.cols.map (fun p => (p.1, inferColumnType p.2))

/-- Embeds `df[col].nunique()` (nulls excluded, as pandas does by default). -/
def nuniqueSeries : PdSeries → Nat
  | .ints _ vals => uniqCount vals
  | .floats vals => uniqCount (vals.filterMap id)
  | .bools vals => uniqCount vals
  | .dts vals => uniqCount (vals.filterMap id)
  | .objs vals => uniqCount (vals.filterMap id)
  | .otherDtype vals => uniqCount (vals.filterMap id)

/-- A chart configuration `{type, column, title}` as produced by
`_generate_chart_configs`. -/
structure ChartConfig : Type where
  type : String
  column : String
  title : String
deriving DecidableEq, Repr

/-- The loop body of `DataExplorerConfig._generate_chart_configs` for a
single column: `colType` is `self.config["columnTypes"].get(col, "string")`. -/
def chartForCol (name : String) (s : PdSeries) (colType : String) :
    List ChartConfig :=
  if colType = "number" ∨ colType = "integer" then
    [⟨"histogram", name, name ++ " Distribution"⟩]
  else if colType = "time" then
    [⟨"time", name, name ++ " Distribution"⟩]
  else if colType = "string" then
    if nuniqueSeries s ≤ 20 then
      [⟨"categorical", name, name ++ " Distribution"⟩]
    else []
  else []

/-- Embeds `DataExplorerConfig._generate_chart_configs(df)` with the given
`columnTypes` dict, including the final `[:6]` truncation. -/
def generateChartConfigs (df : PdDataFrame) (columnTypes : List (String × String)) :
    List ChartConfig :=
  (df.cols.flatMap (fun p =>
    chartForCol p.1 p.2 (((columnTypes.lookup p.1).getD "string")))).take 6

/-- The chart configurations produced by `load_dataframe`, which first
computes `columnTypes` from the same dataframe. -/
def loadDataframeCharts (df : PdDataFrame) : List ChartConfig :=
  generateChartConfigs df (inferColumnTypes df)

/-! ## v5 column partition, padding and 3x3 chart layout

Embeds the rest of `load_and_generate` in
`src/iterations/v5-production/data_loader.py`: the separation of the
inferred columns by type, the three `while` padding loops, and the
construction of `chart_layout`.  The `while` loops each add exactly one
element per iteration, so running them on fuel equal to their target
length (6, 1 and 3) is exact. -/

/-- Loop `while len(hist_cols) < 6`: take from the front of `bar_cols`,
else duplicate `hist_cols[0]` (or `df.columns[0]` when empty). -/
def padHistLoop (firstCol : String) :
    Nat → List String → List String → List String × List String
  | 0, hist, bar => (hist, bar)
  | n + 1, hist, bar =>
    if hist.length < 6 then
      match bar with
      | b :: rest => padHistLoop firstCol n (hist ++ [b]) rest
      | [] => padHistLoop firstCol n (hist ++ [hist.headD firstCol]) []
    else (hist, bar)

/-- Loop `while len(angle_cols) < 1`: pop the last of `hist_cols`, else use
`df.columns[0]`.  One iteration always suffices. -/
def popAngle (firstCol : String) (hist angle : List String) :
    List String × List String :=
  if angle.length < 1 then
    match hist.getLast? with
    | some x => (hist.dropLast, angle ++ [x])
    | none => (hist, angle ++ [firstCol])
  else (hist, angle)

/-- Loop `while len(bar_cols) < 3`: pop the last of `hist_cols`, else use
`df.columns[0]`. -/
def padBarLoop (firstCol : String) :
    Nat → List String → List String → List String × List String
  | 0, hist, bar => (hist, bar)
  | n + 1, hist, bar =>
    if bar.length < 3 then
      match hist.getLast? with
      | some x => padBarLoop firstCol n hist.dropLast (bar ++ [x])
      | none => padBarLoop firstCol n hist (bar ++ [firstCol])
    else (hist, bar)

/-- The separation
`hist_cols / angle_cols / bar_cols = [col for col, typ in columns.items() if ...]`. -/
def v5Separate (columns : List (String × String)) :
    List String × List String × List String :=
  (columns.filterMap (fun p =>
     if p.2 = "integer" ∨ p.2 = "number" then some p.1 else none),
   columns.filterMap (fun p => if p.2 = "angle" then some p.1 else none),
   columns.filterMap (fun p => if p.2 = "string" then some p.1 else none))

/-- The three column lists as they stand after all three padding loops. -/
def v5PaddedCols (df : PdDataFrame) :
    List String × List String × List String :=
  let sep := v5Separate (v5InferColumns df)
  let firstCol := df.names.headD ""
  let hb1 := padHistLoop firstCol 6 sep.1 sep.2.2
  let ha := popAngle firstCol hb1.1 sep.2.1
  let hb2 := padBarLoop firstCol 3 ha.1 hb1.2
  (hb2.1, ha.2, hb2.2)

/-- One entry of v5's `chart_layout`. -/
structure V5Chart : Type where
  id : String
  type : String
  column : String
  title : String
deriving DecidableEq, Repr

/-- ASCII uppercasing of one character (`str.upper()` per character;
column names here are ASCII). -/
def asciiUpper (c : Char) : Char :=
  if 'a' ≤ c ∧ c ≤ 'z' then Char.ofNat (c.toNat - 32) else c

/-- Embeds `col.replace('_', ' ').upper()`. -/
def v5Title (col : String) : String :=
  String.mk ((col.toList.map (fun c => if c = '_' then ' ' else c)).map asciiUpper)

/-- The `chart_layout` list.  Python indexes `hist_cols[0..4]`,
`angle_cols[0]` and `bar_cols[0..2]`; when any list is too short the
script dies with an `IndexError` and emits nothing, which the `none`
branch captures. -/
def v5ChartLayout (hist angle bar : List String) : Option (List V5Chart) :=
  match hist, angle, bar with
  | h1 :: h2 :: h3 :: h4 :: h5 :: _, a1 :: _, b1 :: b2 :: b3 :: _ =>
    some
      [⟨"chart1", "histogram", h1, v5Title h1⟩,
       ⟨"chart2", "histogram", h2, v5Title h2⟩,
       ⟨"chart3", "angle", a1, v5Title a1⟩,
       ⟨"chart4", "histogram", h3, v5Title h3⟩,
       ⟨"chart5", "histogram", h4, v5Title h4⟩,
       ⟨"chart6", "bar", b1, v5Title b1⟩,
       ⟨"chart7", "histogram", h5, v5Title h5⟩,
       ⟨"chart8", "bar", b2, v5Title b2⟩,
       ⟨"chart9", "bar", b3, v5Title b3⟩]
  | _, _, _ => none

/-- The chart layout emitted by v5's `load_and_generate` for a
dataframe (`none` when the script raises `IndexError` instead). -/
def v5Layout (df : PdDataFrame) : Option (List V5Chart) :=
  let padded := v5PaddedCols df
  v5ChartLayout padded.1 padded.2.1 padded.2.2

/-! ## Typed-array encoding (`build_dashboard.py`)

`encode_typed_array` downcasts a numpy array and base64-encodes its
bytes; the JavaScript `decodeTypedArray` embedded in
`create_dashboard_html` reverses this in the browser.

A 1-D numpy array is modelled by its dtype and its elements as `Int`:
the signed value for integer dtypes, and the 32-bit pattern for
`float32` (byte-exact, NaN payloads included).  The `float64` input
case of `encode_typed_array` performs an IEEE rounding conversion and
is outside this model; no claim touches it. -/

/-- The numpy dtypes relevant to `encode_typed_array` after its cast
chain (everything except `float64`, whose conversion to `float32`
rounds). -/
inductive NpDtype : Type
  | int64
  | int32
  | int16
  | int8
  | float32
  | uint32
  | uint16
  | uint8
deriving DecidableEq, Repr

/-- A 1-D numpy array: dtype plus elements. -/
structure NpArray : Type where
  dtype : NpDtype
  elems : List Int
deriving DecidableEq, Repr

/-- Bytes per element of each dtype. -/
def NpDtype.byteWidth : NpDtype → Nat
  | .int64 => 8
  | .int32 => 4
  | .int16 => 2
  | .int8 => 1
  | .float32 => 4
  | .uint32 => 4
  | .uint16 => 2
  | .uint8 => 1

/-- Well-formed array: every element is representable in its dtype
(signed range for int dtypes, bit-pattern range for the others). -/
def NpArray.wf (a : NpArray) : Prop :=
  match a.dtype with
  | .int64 => ∀ v ∈ a.elems, -(2 ^ 63) ≤ v ∧ v < 2 ^ 63
  | .int32 => ∀ v ∈ a.elems, -(2 ^ 31) ≤ v ∧ v < 2 ^ 31
  | .int16 => ∀ v ∈ a.elems, -(2 ^ 15) ≤ v ∧ v < 2 ^ 15
  | .int8 => ∀ v ∈ a.elems, -(2 ^ 7) ≤ v ∧ v < 2 ^ 7
  | .float32 => ∀ v ∈ a.elems, 0 ≤ v ∧ v < 2 ^ 32
  | .uint32 => ∀ v ∈ a.elems, 0 ≤ v ∧ v < 2 ^ 32
  | .uint16 => ∀ v ∈ a.elems, 0 ≤ v ∧ v < 2 ^ 16
  | .uint8 => ∀ v ∈ a.elems, 0 ≤ v ∧ v < 2 ^ 8

/-- numpy's `astype` from a signed integer dtype to an unsigned one of
`bits` bits: a C-style cast, i.e. reduction modulo `2 ^ bits` into
`[0, 2 ^ bits)` (`Int.emod` by a positive modulus lands there). -/
def castToUnsigned (bits : Nat) (v : Int) : Int :=
  v % (2 ^ bits : Int)

/-- The dtype-conversion block at the top of `encode_typed_array`
(minus the unmodelled `float64 → float32` branch):
`int64 → uint32`, `int32 → uint32`, `int16 → uint16`, `int8 → uint8`;
other dtypes pass through unchanged. -/
def downcastStep (a : NpArray) : NpArray :=
  match a.dtype with
  | .int64 => ⟨.uint32, a.elems.map (castToUnsigned 32)⟩
  | .int32 => ⟨.uint32, a.elems.map (castToUnsigned 32)⟩
  | .int16 => ⟨.uint16, a.elems.map (castToUnsigned 16)⟩
  | .int8 => ⟨.uint8, a.elems.map (castToUnsigned 8)⟩
  | _ => a

/-- Embeds `dtype_map.get(arr.dtype.type, 'float32')`. -/
def dtypeName : NpDtype → String
  | .float32 => "float32"
  | .uint32 => "uint32"
  | .uint16 => "uint16"
  | .uint8 => "uint8"
  | _ => "float32"

/-- Serialises `width` little-endian bytes of a nonnegative value (`arr.tobytes()`
for one element; numpy stores the default dtypes little-endian, and
JavaScript typed arrays read the buffer little-endian as well). -/
def toLEBytes : Nat → Nat → List Nat
  | 0, _ => []
  | w + 1, v => v % 256 :: toLEBytes w (v / 256)

/-- Read back a little-endian byte list as a value. -/
def fromLEBytes : List Nat → Nat
  | [] => 0
  | b :: bs => b + 256 * fromLEBytes bs

/-- Embeds `arr.tobytes()` for a (cast) array whose elements are all
nonnegative patterns. -/
def npTobytes (a : NpArray) : List Nat :=
  a.elems.flatMap (fun v => toLEBytes a.dtype.byteWidth v.toNat)

/-! ### Base64 (`base64.b64encode` / JavaScript `atob`) -/

/-- The base64 alphabet. -/
def b64Alphabet : List Char :=
  "ABCDEFGHIJKLMNOPQRSTUVWXYZabcdefghijklmnopqrstuvwxyz0123456789+/".toList

/-- Character for a 6-bit value. -/
def b64CharOf (i : Nat) : Char :=
  b64Alphabet.getD i 'A'

/-- 6-bit value of a base64 character. -/
def b64IndexOf (c : Char) : Nat :=
  b64Alphabet.indexOf c

/-- Embeds `base64.b64encode`: three bytes become four characters; a tail of
one or two bytes is padded with `=`. -/
def b64Encode : List Nat → List Char
  | [] => []
  | [b1] =>
    [b64CharOf (b1 / 4), b64CharOf (b1 % 4 * 16), '=', '=']
  | [b1, b2] =>
    [b64CharOf (b1 / 4), b64CharOf (b1 % 4 * 16 + b2 / 16),
     b64CharOf (b2 % 16 * 4), '=']
  | b1 :: b2 :: b3 :: rest =>
    b64CharOf (b1 / 4) :: b64CharOf (b1 % 4 * 16 + b2 / 16) ::
    b64CharOf (b2 % 16 * 4 + b3 / 64) :: b64CharOf (b3 % 64) ::
    b64Encode rest

/-- JavaScript's `atob`: four characters back to three bytes, with the
two padded forms at the end. -/
def b64Decode : List Char → List Nat
  | c1 :: c2 :: c3 :: c4 :: rest =>
    if c3 = '=' then
      [b64IndexOf c1 * 4 + b64IndexOf c2 / 16]
    else if c4 = '=' then
      [b64IndexOf c1 * 4 + b64IndexOf c2 / 16,
       b64IndexOf c2 % 16 * 16 + b64IndexOf c3 / 4]
    else
      (b64IndexOf c1 * 4 + b64IndexOf c2 / 16) ::
      (b64IndexOf c2 % 16 * 16 + b64IndexOf c3 / 4) ::
      (b64IndexOf c3 % 4 * 64 + b64IndexOf c4) :: b64Decode rest
  | _ => []

/-! ### The encoder and the browser-side decoder -/

/-- The payload dict returned by `encode_typed_array`:
`{'dtype': ..., 'shape': list(arr.shape), 'data': base64(...)}`. -/
structure TypedPayload : Type where
  dtype : String
  shape : List Nat
  data : List Char
deriving DecidableEq, Repr

/-- Embeds `encode_typed_array(arr)` for a 1-D array. -/
def encode_typed_array (a : NpArray) : TypedPayload :=
  let a2 := downcastStep a
  { dtype := dtypeName a2.dtype
    shape := [a2.elems.length]
    data := b64Encode (npTobytes a2) }

/-- Split a byte list into consecutive `w`-byte little-endian values
(the reinterpretation a JavaScript typed-array view performs). -/
def bytesToElems (w : Nat) (bs : List Nat) : List Int :=
  if hcond : 0 < w ∧ bs ≠ [] then
    have hdec : bs.length - w < bs.length := by
      have hlen : 0 < bs.length := List.length_pos.mpr hcond.2
      omega
    (fromLEBytes (bs.take w) : Int) :: bytesToElems w (bs.drop w)
  else []
termination_by bs.length
decreasing_by simpa using hdec

/-- The JavaScript `decodeTypedArray(encoded)` from the embedded
dashboard script: base64-decode the `data` field and view the buffer
as the typed array named by `dtype`; an unknown dtype throws. -/
def decodeTypedArray (p : TypedPayload) : Option (List Int) :=
  let bytes := b64Decode p.data
  match p.dtype with
  | "float32" => some (bytesToElems 4 bytes)
  | "uint32" => some (bytesToElems 4 bytes)
  | "uint16" => some (bytesToElems 2 bytes)
  | "uint8" => some (bytesToElems 1 bytes)
  | _ => none

/-! ## Arrow file processing (`process_arrow_file`)

An Arrow table is modelled by its row count and named columns.  The
per-column conversion branches of `process_arrow_file` are embedded for
integer, floating (`float32` patterns), boolean and string columns; the
timestamp branch (a floating-point division by `1e9`) is outside the
model and no claim touches it. -/

/-- An Arrow column, as far as the conversion code inspects it. -/
inductive ArrowCol : Type
  | ints (k : NpDtype) (vals : List Int)
  | floats (vals : List Int)
  | bools (vals : List Bool)
  | strs (vals : List String)
deriving DecidableEq, Repr

/-- An Arrow table. -/
structure ArrowTable : Type where
  numRows : Nat
  cols : List (String × ArrowCol)
deriving DecidableEq, Repr

/-- Embeds `table.column_names`. -/
def ArrowTable.columnNames (t : ArrowTable) : List String :=
  t.cols.map Prod.fst

/-- Embeds `table[col]` for a present column. -/
def ArrowTable.getCol (t : ArrowTable) (c : String) : ArrowCol :=
  (t.cols.lookup c).getD (.ints .int64 [])

/-- The `Convert to numpy array based on type` block: integers and
floats pass through, booleans become `uint8`, strings are mapped to
their index in the list of distinct values in order of first
appearance (`pc.unique`), stored as `uint16` (`np.array` with that
dtype reduces the index modulo `2 ^ 16`). -/
def arrowColToNp : ArrowCol → NpArray
  | .ints k vs => ⟨k, vs⟩
  | .floats vs => ⟨.float32, vs⟩
  | .bools vs => ⟨.uint8, vs.map (fun b => if b then 1 else 0)⟩
  | .strs vs =>
    let uniq := uniqList vs
    ⟨.uint16, vs.map (fun v => ((uniq.indexOf v : Int) % (2 ^ 16 : Int)))⟩

/-- The `metadata` dict of the payload. -/
structure ArrowMeta : Type where
  total_rows : Nat
  columns : List String
deriving DecidableEq, Repr

/-- The value returned by `process_arrow_file` on success. -/
structure ArrowPayload : Type where
  metadata : ArrowMeta
  data : List (String × TypedPayload)
deriving DecidableEq, Repr

/-- Embeds `process_arrow_file(arrow_file, columns)` after the file is read:
the validation loop returns `None` as soon as one requested column is
missing; otherwise the metadata records `table.num_rows` and the
requested column list, and each requested column is converted and
encoded. -/
def process_arrow_file (t : ArrowTable) (columns : List String) :
    Option ArrowPayload :=
  if ∀ c ∈ columns, c ∈ t.columnNames then
    some
      { metadata := { total_rows := t.numRows, columns := columns }
        data := columns.map (fun c =>
          (c, encode_typed_array (arrowColToNp (t.getCol c)))) }
  else none

/-! ## Round-trip lemmas for the byte and base64 layers -/

theorem toLEBytes_length (w v : Nat) : (toLEBytes w v).length = w := by
  induction w generalizing v with
  | zero => rfl
  | succ n ih => simp [toLEBytes, ih]

theorem toLEBytes_lt (w v : Nat) : ∀ b ∈ toLEBytes w v, b < 256 := by
  induction w generalizing v with
  | zero => simp [toLEBytes]
  | succ n ih =>
    intro b hb
    simp only [toLEBytes, List.mem_cons] at hb
    cases hb with
    | inl h1 => subst h1; exact Nat.mod_lt _ (by norm_num)
    | inr h2 => exact ih _ b h2

theorem fromLEBytes_toLEBytes (w v : Nat) (h : v < 256 ^ w) :
    fromLEBytes (toLEBytes w v) = v := by
  induction w generalizing v with
  | zero =>
    simp only [pow_zero, Nat.lt_one_iff] at h
    simp [toLEBytes, fromLEBytes, h]
  | succ n ih =>
    have hdiv : v / 256 < 256 ^ n := by
      rw [Nat.div_lt_iff_lt_mul (by norm_num : 0 < 256)]
      calc v < 256 ^ (n + 1) := h
        _ = 256 ^ n * 256 := by ring
    simp only [toLEBytes, fromLEBytes, ih (v / 256) hdiv]
    omega

theorem b64IndexOf_b64CharOf : ∀ i < 64, b64IndexOf (b64CharOf i) = i := by
  decide

theorem b64CharOf_ne_pad : ∀ i < 64, b64CharOf i ≠ '=' := by
  decide

theorem b64_roundtrip : ∀ bs : List Nat, (∀ b ∈ bs, b < 256) →
    b64Decode (b64Encode bs) = bs
  | [], _ => by simp [b64Encode, b64Decode]
  | [b1], h => by
    have hb1 : b1 < 256 := h b1 (by simp)
    have h1 : b1 / 4 < 64 := by omega
    have h2 : b1 % 4 * 16 < 64 := by omega
    simp only [b64Encode, b64Decode, if_pos rfl, if_true,
      b64IndexOf_b64CharOf _ h1, b64IndexOf_b64CharOf _ h2]
    congr 1
    omega
  | [b1, b2], h => by
    have hb1 : b1 < 256 := h b1 (by simp)
    have hb2 : b2 < 256 := h b2 (by simp)
    have h1 : b1 / 4 < 64 := by omega
    have h2 : b1 % 4 * 16 + b2 / 16 < 64 := by omega
    have h3 : b2 % 16 * 4 < 64 := by omega
    simp only [b64Encode, b64Decode, if_neg (b64CharOf_ne_pad _ h3), if_pos rfl,
      if_true, b64IndexOf_b64CharOf _ h1, b64IndexOf_b64CharOf _ h2,
      b64IndexOf_b64CharOf _ h3]
    simp only [List.cons.injEq, and_true]
    exact ⟨by omega, by omega⟩
  | b1 :: b2 :: b3 :: rest, h => by
    have hb1 : b1 < 256 := h b1 (by simp)
    have hb2 : b2 < 256 := h b2 (by simp)
    have hb3 : b3 < 256 := h b3 (by simp)
    have h1 : b1 / 4 < 64 := by omega
    have h2 : b1 % 4 * 16 + b2 / 16 < 64 := by omega
    have h3 : b2 % 16 * 4 + b3 / 64 < 64 := by omega
    have h4 : b3 % 64 < 64 := by omega
    have ih := b64_roundtrip rest
      (fun b hb => h b (by simp only [List.mem_cons] at hb ⊢; tauto))
    show b64Decode (b64CharOf (b1 / 4) :: b64CharOf (b1 % 4 * 16 + b2 / 16) ::
      b64CharOf (b2 % 16 * 4 + b3 / 64) :: b64CharOf (b3 % 64) :: b64Encode rest) =
      b1 :: b2 :: b3 :: rest
    simp only [b64Decode, if_neg (b64CharOf_ne_pad _ h3),
      if_neg (b64CharOf_ne_pad _ h4),
      b64IndexOf_b64CharOf _ h1, b64IndexOf_b64CharOf _ h2,
      b64IndexOf_b64CharOf _ h3, b64IndexOf_b64CharOf _ h4]
    simp only [List.cons.injEq]
    exact ⟨by omega, by omega, by omega, ih⟩

theorem bytesToElems_flatMap (w : Nat) (hw : 0 < w) :
    ∀ l : List Int, (∀ v ∈ l, 0 ≤ v ∧ v < (256 : Int) ^ w) →
      bytesToElems w (l.flatMap (fun v => toLEBytes w v.toNat)) = l := by
  intro l
  induction l with
  | nil =>
    intro _
    rw [bytesToElems]
    simp
  | cons x xs ih =>
    intro hbound
    have hx := hbound x (by simp)
    have hlen : (toLEBytes w x.toNat).length = w := toLEBytes_length w x.toNat
    have hne : toLEBytes w x.toNat ++ xs.flatMap (fun v => toLEBytes w v.toNat) ≠ [] := by
      intro hcontra
      have : (toLEBytes w x.toNat).length = 0 := by
        simp [List.append_eq_nil.mp hcontra]
      omega
    rw [List.flatMap_cons, bytesToElems, dif_pos ⟨hw, hne⟩,
      List.take_left' hlen, List.drop_left' hlen]
    have hxval : x.toNat < 256 ^ w := by
      have h0 := hx.1
      have h1 := hx.2
      have : ((x.toNat : Int)) < ((256 : Int) ^ w) := by rwa [Int.toNat_of_nonneg h0]
      exact_mod_cast this
    rw [fromLEBytes_toLEBytes w x.toNat hxval, Int.toNat_of_nonneg hx.1,
      ih (fun v hv => hbound v (by simp [hv]))]

/-- All bytes produced by element serialisation are below 256, as
`b64_roundtrip` requires. -/
theorem flatMapBytes_lt (w : Nat) (l : List Int) :
    ∀ b ∈ l.flatMap (fun v => toLEBytes w v.toNat), b < 256 := by
  intro b hb
  simp only [List.mem_flatMap] at hb
  obtain ⟨v, _, hv⟩ := hb
  exact toLEBytes_lt _ _ b hv

/-- Serialise, base64, un-base64, deserialise: the identity on element
lists whose values fit in `w` bytes. -/
theorem roundtrip_core (w : Nat) (hw : 0 < w) (elems : List Int)
    (hb : ∀ v ∈ elems, 0 ≤ v ∧ v < (256 : Int) ^ w) :
    bytesToElems w
      (b64Decode (b64Encode (elems.flatMap (fun v => toLEBytes w v.toNat)))) =
      elems := by
  rw [b64_roundtrip _ (flatMapBytes_lt w elems), bytesToElems_flatMap w hw elems hb]

/-- numpy integer-to-unsigned `astype` is the identity exactly on values
already representable in the unsigned target. -/
theorem castToUnsigned_eq_self (bits : Nat) (v : Int) :
    castToUnsigned bits v = v ↔ 0 ≤ v ∧ v < 2 ^ bits := by
  unfold castToUnsigned
  constructor
  · intro h
    have hpos : (0 : Int) < 2 ^ bits := by positivity
    refine ⟨?_, ?_⟩
    · rw [← h]; exact Int.emod_nonneg v (by positivity)
    · rw [← h]; exact Int.emod_lt_of_pos v hpos
  · intro h
    exact Int.emod_eq_of_lt h.1 h.2

theorem map_eq_self_iff_forall {α : Type} (f : α → α) (l : List α) :
    l.map f = l ↔ ∀ x ∈ l, f x = x := by
  induction l with
  | nil => simp
  | cons a as ih => simp [ih]

/-! ## Claim C2: the integer downcast in `encode_typed_array` -/

/-- C2 (counterexample).  The downcast `encode_typed_array` performs on
integer arrays is not value-preserving: the `int64` array `[-1]` is cast
to `uint32`, where its element becomes `4294967295 ≠ -1`. -/
theorem c2_downcast_not_value_preserving :
    (downcastStep ⟨.int64, [-1]⟩).elems = [(4294967295 : Int)] ∧
      ((-1 : Int) ≠ (4294967295 : Int)) ∧
      (downcastStep ⟨.int64, [-1]⟩).elems ≠ (NpArray.mk .int64 [-1]).elems := by
  refine ⟨by decide, by decide, by decide⟩

/-- C2 (amended).  For every integer-dtype array handed to
`encode_typed_array`, the downcast it performs (`int64`/`int32` to
`uint32`, `int16` to `uint16`, `int8` to `uint8`) is value-preserving
exactly when every element already lies in the range of the unsigned
target type; out-of-range elements (negative ones in particular) wrap
modulo the target width. -/
theorem c2_downcast_value_preserving_iff (a : NpArray)
    (hd : a.dtype = .int64 ∨ a.dtype = .int32 ∨ a.dtype = .int16 ∨ a.dtype = .int8) :
    (downcastStep a).elems = a.elems ↔
      ∀ v ∈ a.elems, 0 ≤ v ∧ v < 2 ^ (8 * (downcastStep a).dtype.byteWidth) := by
  obtain ⟨d, elems⟩ := a
  rcases hd with h | h | h | h <;>
    simp only at h <;> subst h <;>
    simp only [downcastStep, NpDtype.byteWidth] <;>
    rw [map_eq_self_iff_forall] <;>
    refine forall_congr' (fun v => forall_congr' (fun _ => ?_)) <;>
    rw [castToUnsigned_eq_self] <;>
    norm_num

/-- C2 (witness): an in-range `int64` array is preserved by the downcast. -/
theorem c2_downcast_value_preserving_witness :
    (downcastStep ⟨.int64, [0, 3, 4294967295]⟩).elems = [0, 3, 4294967295] :=
  (c2_downcast_value_preserving_iff ⟨.int64, [0, 3, 4294967295]⟩
    (Or.inl rfl)).mpr (by decide)

/-! ## Claim C3: encode / decode round trip -/

/-- C3.  For every 1-D array whose dtype is already one of `float32`,
`uint32`, `uint16`, `uint8` (so the cast chain of `encode_typed_array`
leaves it untouched), base64-decoding the payload's `data` field and
reinterpreting the bytes according to its `dtype` field — exactly what
the embedded `decodeTypedArray` does — returns the original elements,
and the payload's `shape` field is the array's shape. -/
theorem c3_decode_encode_roundtrip (a : NpArray)
    (hd : a.dtype = .float32 ∨ a.dtype = .uint32 ∨ a.dtype = .uint16 ∨ a.dtype = .uint8)
    (hwf : a.wf) :
    decodeTypedArray (encode_typed_array a) = some a.elems ∧
      (encode_typed_array a).shape = [a.elems.length] := by
  obtain ⟨d, elems⟩ := a
  rcases hd with h | h | h | h <;> simp only at h <;> subst h <;>
    simp only [NpArray.wf] at hwf <;>
    refine ⟨?_, rfl⟩ <;>
    simp only [decodeTypedArray, encode_typed_array, downcastStep, dtypeName,
      npTobytes, NpDtype.byteWidth, Option.some.injEq] <;>
    refine roundtrip_core _ (by norm_num) elems (fun v hv => ⟨(hwf v hv).1, ?_⟩) <;>
    have hb := (hwf v hv).2 <;>
    norm_num at hb ⊢ <;>
    exact hb

/-- C3 (witness) at a concrete `uint16` array. -/
theorem c3_decode_encode_roundtrip_witness :
    decodeTypedArray (encode_typed_array ⟨.uint16, [1000, 65535, 0]⟩) =
        some [1000, 65535, 0] ∧
      (encode_typed_array ⟨.uint16, [1000, 65535, 0]⟩).shape = [3] :=
  c3_decode_encode_roundtrip ⟨.uint16, [1000, 65535, 0]⟩
    (by simp) (by intro v hv; fin_cases hv <;> norm_num)

/-! ## Helper lemmas about the generic loader's chart generation -/

/-- A chart emitted by `load_dataframe` comes from one iterated column. -/
theorem mem_loadDataframeCharts {df : PdDataFrame} {cfg : ChartConfig}
    (h : cfg ∈ loadDataframeCharts df) :
    ∃ p ∈ df.cols,
      cfg ∈ chartForCol p.1 p.2 (((inferColumnTypes df).lookup p.1).getD "string") := by
  simp only [loadDataframeCharts, generateChartConfigs] at h
  have h2 := List.mem_of_mem_take h
  simpa only [List.mem_flatMap] using h2

/-- Shape of any chart `chartForCol` can emit. -/
theorem chartForCol_cases {name : String} {s : PdSeries} {t : String}
    {cfg : ChartConfig} (h : cfg ∈ chartForCol name s t) :
    cfg.column = name ∧ cfg.title = name ++ " Distribution" ∧
      ((cfg.type = "histogram" ∧ (t = "number" ∨ t = "integer")) ∨
       (cfg.type = "time" ∧ t = "time") ∨
       (cfg.type = "categorical" ∧ t = "string" ∧ nuniqueSeries s ≤ 20)) := by
  unfold chartForCol at h
  split_ifs at h with h1 h2 h3 h4
  · have he : cfg = ⟨"histogram", name, name ++ " Distribution"⟩ := by simpa using h
    subst he
    exact ⟨rfl, rfl, Or.inl ⟨rfl, h1⟩⟩
  · have he : cfg = ⟨"time", name, name ++ " Distribution"⟩ := by simpa using h
    subst he
    exact ⟨rfl, rfl, Or.inr (Or.inl ⟨rfl, h2⟩)⟩
  · have he : cfg = ⟨"categorical", name, name ++ " Distribution"⟩ := by simpa using h
    subst he
    exact ⟨rfl, rfl, Or.inr (Or.inr ⟨rfl, h3, h4⟩)⟩
  · simp at h
  · simp at h

/-! ## Claims C1 and C6: the cardinality heuristics -/

theorem angleCheck_true {thresh : Nat} {vals : List ℚ} (hne : vals ≠ [])
    (hrange : ∀ x ∈ vals, 0 ≤ x ∧ x ≤ 360) (hu : thresh < uniqCount vals) :
    angleCheck thresh vals = true := by
  obtain ⟨mn, hmn⟩ := listMinQ_isSome hne
  obtain ⟨mx, hmx⟩ := listMaxQ_isSome hne
  have h0 : 0 ≤ mn := (hrange mn (listMinQ_mem hmn)).1
  have h360 : mx ≤ 360 := (hrange mx (listMaxQ_mem hmx)).2
  simp [angleCheck, hmn, hmx, h0, h360, hu]

/-- The value list of the C1 counterexample: twelve distinct integers
in `[0, 360]`. -/
def c1Vals : List ℚ :=
  (List.range 12).map (fun n => (n : ℚ))

set_option maxRecDepth 100000 in
/-- C1 (counterexample).  A numeric column whose non-null values all lie
in `[0, 360]` and which has more than 10 unique values (here 12) is not
classified `'angle'` by the v5 type inference: its threshold is
`nunique() > 20`, so the column comes out `'integer'`. -/
theorem c1_counterexample :
    (∀ x ∈ c1Vals, 0 ≤ x ∧ x ≤ 360) ∧ 10 < uniqCount c1Vals ∧
      v5InferType (.num .int64 c1Vals) ≠ "angle" ∧
      v5InferType (.num .int64 c1Vals) = "integer" := by
  refine ⟨by decide, by decide, by decide, by decide⟩

/-- C1 (amended).  For a numeric column with non-null values:
the v4 inferencer classifies it `'angle'` when the first 1000 non-null
values lie in `[0, 360]` and contain more than 10 distinct values;
the v5 inferencer classifies it `'angle'` when all non-null values lie
in `[0, 360]` and there are more than 20 distinct ones. -/
theorem c1_angle_inference_amended :
    (∀ (k : NumKind) (vals : List ℚ), vals ≠ [] →
       (∀ x ∈ vals.take 1000, 0 ≤ x ∧ x ≤ 360) →
       10 < uniqCount (vals.take 1000) →
       v4InferType (.num k vals) = "angle") ∧
    (∀ (k : NumKind) (vals : List ℚ), vals ≠ [] →
       (∀ x ∈ vals, 0 ≤ x ∧ x ≤ 360) →
       20 < uniqCount vals →
       v5InferType (.num k vals) = "angle") := by
  constructor
  · intro k vals hne hrange hu
    have hsne : vals.take 1000 ≠ [] := by
      rw [Ne, List.take_eq_nil_iff]
      simp [hne]
    simp [v4InferType, angleCheck_true hsne hrange hu]
  · intro k vals hne hrange hu
    simp [v5InferType, angleCheck_true hne hrange hu]

set_option maxRecDepth 100000 in
/-- C1 (witness): v4 turns 11 distinct in-range values into `'angle'`,
v5 needs 21. -/
theorem c1_angle_inference_amended_witness :
    v4InferType (.num .float64 ((List.range 11).map (fun n => (n : ℚ)))) = "angle" ∧
      v5InferType (.num .float64 ((List.range 21).map (fun n => (n : ℚ)))) = "angle" :=
  ⟨c1_angle_inference_amended.1 .float64 _ (by decide) (by decide) (by decide),
   c1_angle_inference_amended.2 .float64 _ (by decide) (by decide) (by decide)⟩

/-- The value list of the C6 counterexample: 21 distinct non-time strings. -/
def c6Vals : List String :=
  (List.range 21).map (fun n => "a" ++ toString n)

set_option maxRecDepth 100000 in
/-- C6 (counterexample).  An object column with 21 unique values is
still assigned the categorical type `'string'` by the v4 inferencer
(its `nunique() <= 20` test is dead code: both branches return
`'string'`), contradicting "categorical exactly when at most 20 unique
values". -/
theorem c6_counterexample :
    20 < uniqCount c6Vals ∧ v4InferType (.objs c6Vals) = "string" := by
  refine ⟨by decide, by decide⟩

/-- C6 (amended).  For object (string) columns:
the v5 inferencer assigns `'string'` exactly when the column has at
most 20 unique values (falling back to `'number'` otherwise);
the v4 inferencer assigns `'string'` to every object column that fails
its time-pattern test, regardless of unique count; and the generic
loader emits a categorical chart for a column it iterates only when
that column's series has at most 20 unique values. -/
theorem c6_string_categorical_amended :
    (∀ vals : List String,
       v5InferType (.objs vals) = "string" ↔ uniqCount vals ≤ 20) ∧
    (∀ vals : List String,
       ¬ (4 * (vals.take 1000).length < 5 * ((vals.take 1000).countP matchTimeV4)) →
       v4InferType (.objs vals) = "string") ∧
    (∀ (df : PdDataFrame) (cfg : ChartConfig), cfg ∈ loadDataframeCharts df →
       cfg.type = "categorical" →
       ∃ s, (cfg.column, s) ∈ df.cols ∧ nuniqueSeries s ≤ 20) := by
  refine ⟨?_, ?_, ?_⟩
  · intro vals
    by_cases h : uniqCount vals ≤ 20 <;> simp [v5InferType, h]
  · intro vals h
    simp only [v4InferType]
    rw [if_neg h, ite_self]
  · intro df cfg hmem htype
    obtain ⟨p, hp, hcfg⟩ := mem_loadDataframeCharts hmem
    obtain ⟨hcol, _, hcases⟩ := chartForCol_cases hcfg
    rcases hcases with ⟨ht, _⟩ | ⟨ht, _⟩ | ⟨_, _, hn⟩
    · rw [ht] at htype; exact absurd htype (by decide)
    · rw [ht] at htype; exact absurd htype (by decide)
    · exact ⟨p.2, by rw [hcol]; exact hp, hn⟩

/-- C6 (witness): v5 gives `'string'` at 3 unique values and
`'number'` at 21; v4 gives `'string'` to a plain string column; the
generic loader's categorical chart for column `b` has at most 20
uniques. -/
theorem c6_string_categorical_amended_witness :
    v5InferType (.objs ["x", "y", "x"]) = "string" ∧
      v4InferType (.objs ["x", "y", "x"]) = "string" ∧
      ∃ s, (("b", s) ∈
          (PdDataFrame.mk [("b", PdSeries.objs [some "u", some "v"])]).cols ∧
        nuniqueSeries s ≤ 20) :=
  ⟨(c6_string_categorical_amended.1 ["x", "y", "x"]).mpr (by decide),
   c6_string_categorical_amended.2.1 ["x", "y", "x"] (by decide),
   c6_string_categorical_amended.2.2
     (PdDataFrame.mk [("b", PdSeries.objs [some "u", some "v"])])
     ⟨"categorical", "b", "b Distribution"⟩ (by decide) rfl⟩

/-! ## Claims C7, C8 and C10: the generic loader -/

/-- C8.  `_infer_column_types` is total with a default: every column
gets exactly one type among `integer`, `number`, `time`, `string`, and
a column whose dtype matches none of the numeric / datetime / string
heuristics gets the default `"string"`. -/
theorem c8_infer_total_with_default (s : PdSeries) :
    (inferColumnType s = "integer" ∨ inferColumnType s = "number" ∨
      inferColumnType s = "time" ∨ inferColumnType s = "string") ∧
    (isNumericDtype s = false → isDatetimeDtype s = false →
      isStringDtype s = false → inferColumnType s = "string") := by
  cases s with
  | ints k vals =>
    exact ⟨Or.inl rfl, fun h _ _ => by simp [isNumericDtype] at h⟩
  | floats vals =>
    exact ⟨Or.inr (Or.inl rfl), fun h _ _ => by simp [isNumericDtype] at h⟩
  | bools vals =>
    exact ⟨Or.inr (Or.inl rfl), fun h _ _ => by simp [isNumericDtype] at h⟩
  | dts vals =>
    exact ⟨Or.inr (Or.inr (Or.inl rfl)), fun _ h _ => by simp [isDatetimeDtype] at h⟩
  | objs vals =>
    constructor
    · cases h : isTimeColumn (.objs vals) with
      | false =>
        refine Or.inr (Or.inr (Or.inr ?_))
        simp [inferColumnType, isNumericDtype, isDatetimeDtype, isStringDtype, h]
      | true =>
        refine Or.inr (Or.inr (Or.inl ?_))
        simp [inferColumnType, isNumericDtype, isDatetimeDtype, isStringDtype, h]
    · intro _ _ h3
      simp [isStringDtype] at h3
  | otherDtype vals =>
    exact ⟨Or.inr (Or.inr (Or.inr rfl)), fun _ _ _ => rfl⟩

/-- C8 (witness): a dtype matching none of the heuristics (here a
categorical-like extension dtype) falls back to `"string"`. -/
theorem c8_infer_total_with_default_witness :
    inferColumnType (.otherDtype [some "x", none]) = "string" :=
  (c8_infer_total_with_default (.otherDtype [some "x", none])).2 rfl rfl rfl

/-- C10.  `_generate_chart_configs` never returns more than 6 chart
configurations, whatever the dataframe. -/
theorem c10_at_most_six_charts (df : PdDataFrame) :
    (loadDataframeCharts df).length ≤ 6 := by
  simp only [loadDataframeCharts, generateChartConfigs]
  exact List.length_take_le 6 _

/-- The type `_generate_chart_configs` saw for a column name: the
`columnTypes` dict lookup with default `"string"`. -/
def inferredTypeOf (df : PdDataFrame) (col : String) : String :=
  ((inferColumnTypes df).lookup col).getD "string"

/-- C7.  Every chart configuration generated by
`_generate_chart_configs` is a flat `{type, column, title}` record (the
`ChartConfig` structure has exactly those fields), its title is
`"<column> Distribution"`, and its type matches the column's inferred
type: histogram for number/integer, time for time, categorical for
string. -/
theorem c7_chart_config_shape (df : PdDataFrame) (hnd : df.names.Nodup) :
    ∀ cfg ∈ loadDataframeCharts df,
      cfg.title = cfg.column ++ " Distribution" ∧
      ((cfg.type = "histogram" ∧
          (inferredTypeOf df cfg.column = "number" ∨
            inferredTypeOf df cfg.column = "integer")) ∨
       (cfg.type = "time" ∧ inferredTypeOf df cfg.column = "time") ∨
       (cfg.type = "categorical" ∧ inferredTypeOf df cfg.column = "string")) := by
  intro cfg hmem
  obtain ⟨p, hp, hcfg⟩ := mem_loadDataframeCharts hmem
  obtain ⟨hcol, htitle, hcases⟩ := chartForCol_cases hcfg
  have htyeq : inferredTypeOf df cfg.column =
      ((inferColumnTypes df).lookup p.1).getD "string" := by
    rw [hcol]; rfl
  refine ⟨by rw [htitle, hcol], ?_⟩
  rcases hcases with ⟨ht, hv⟩ | ⟨ht, hv⟩ | ⟨ht, hv, _⟩
  · refine Or.inl ⟨ht, ?_⟩
    rw [htyeq]
    rcases hv with hv | hv
    · exact Or.inl hv
    · exact Or.inr hv
  · exact Or.inr (Or.inl ⟨ht, by rw [htyeq, hv]⟩)
  · exact Or.inr (Or.inr ⟨ht, by rw [htyeq, hv]⟩)

/-- C7 (witness) on a two-column dataframe. -/
theorem c7_chart_config_shape_witness :
    (ChartConfig.mk "histogram" "a" "a Distribution").title =
        (ChartConfig.mk "histogram" "a" "a Distribution").column ++ " Distribution" ∧
      (((ChartConfig.mk "histogram" "a" "a Distribution").type = "histogram" ∧
          (inferredTypeOf (PdDataFrame.mk [("a", PdSeries.ints .int64 [1, 2])])
              (ChartConfig.mk "histogram" "a" "a Distribution").column = "number" ∨
            inferredTypeOf (PdDataFrame.mk [("a", PdSeries.ints .int64 [1, 2])])
              (ChartConfig.mk "histogram" "a" "a Distribution").column = "integer")) ∨
       ((ChartConfig.mk "histogram" "a" "a Distribution").type = "time" ∧
          inferredTypeOf (PdDataFrame.mk [("a", PdSeries.ints .int64 [1, 2])])
            (ChartConfig.mk "histogram" "a" "a Distribution").column = "time") ∨
       ((ChartConfig.mk "histogram" "a" "a Distribution").type = "categorical" ∧
          inferredTypeOf (PdDataFrame.mk [("a", PdSeries.ints .int64 [1, 2])])
            (ChartConfig.mk "histogram" "a" "a Distribution").column = "string")) :=
  c7_chart_config_shape (PdDataFrame.mk [("a", PdSeries.ints .int64 [1, 2])])
    (by decide) (ChartConfig.mk "histogram" "a" "a Distribution") (by decide)

/-! ## Claim C5: every emitted chart references an existing column -/

theorem v5InferColumns_keys_mem {df : PdDataFrame} {n : String} {t : String}
    (h : (n, t) ∈ v5InferColumns df) : n ∈ df.names := by
  simp only [v5InferColumns, inferColumnsWith, List.mem_filterMap] at h
  obtain ⟨p, hp, he⟩ := h
  split at he
  · exact absurd he (by simp)
  · have : p.1 = n := congrArg Prod.fst (Option.some.inj he)
    rw [← this]
    exact List.mem_map.mpr ⟨p, hp, rfl⟩

theorem v5Separate_mem {cols : List (String × String)} :
    (∀ x ∈ (v5Separate cols).1, x ∈ cols.map Prod.fst) ∧
    (∀ x ∈ (v5Separate cols).2.1, x ∈ cols.map Prod.fst) ∧
    (∀ x ∈ (v5Separate cols).2.2, x ∈ cols.map Prod.fst) := by
  refine ⟨?_, ?_, ?_⟩ <;>
    · intro x hx
      simp only [v5Separate, List.mem_filterMap] at hx
      obtain ⟨p, hp, he⟩ := hx
      split at he
      · exact Option.some.inj he ▸ List.mem_map.mpr ⟨p, hp, rfl⟩
      · exact absurd he (by simp)

theorem headD_mem_or (l : List String) (d : String) :
    l.headD d ∈ l ∨ l.headD d = d := by
  cases l with
  | nil => exact Or.inr rfl
  | cons a as => exact Or.inl (by simp)

theorem padHistLoop_mem (P : String → Prop) (firstCol : String) (hP : P firstCol) :
    ∀ (fuel : Nat) (hist bar : List String), (∀ x ∈ hist, P x) → (∀ x ∈ bar, P x) →
      (∀ x ∈ (padHistLoop firstCol fuel hist bar).1, P x) ∧
      (∀ x ∈ (padHistLoop firstCol fuel hist bar).2, P x) := by
  intro fuel
  induction fuel with
  | zero => intro hist bar hh hb; exact ⟨hh, hb⟩
  | succ n ih =>
    intro hist bar hh hb
    simp only [padHistLoop]
    split
    · cases bar with
      | cons b rest =>
        refine ih (hist ++ [b]) rest ?_ ?_
        · intro x hx
          rcases List.mem_append.mp hx with hx | hx
          · exact hh x hx
          · simpa using (by simpa using hx : x = b) ▸ hb b (by simp)
        · exact fun x hx => hb x (by simp [hx])
      | nil =>
        refine ih (hist ++ [hist.headD firstCol]) [] ?_ ?_
        · intro x hx
          rcases List.mem_append.mp hx with hx | hx
          · exact hh x hx
          · have hxe : x = hist.headD firstCol := by simpa using hx
            subst hxe
            rcases headD_mem_or hist firstCol with hm | hm
            · exact hh _ hm
            · rw [hm]; exact hP
        · simp
    · exact ⟨hh, hb⟩

theorem popAngle_mem (P : String → Prop) (firstCol : String) (hP : P firstCol)
    (hist angle : List String) (hh : ∀ x ∈ hist, P x) (ha : ∀ x ∈ angle, P x) :
    (∀ x ∈ (popAngle firstCol hist angle).1, P x) ∧
    (∀ x ∈ (popAngle firstCol hist angle).2, P x) := by
  unfold popAngle
  split
  · split
    · next hl =>
      refine ⟨fun x hx => hh x (List.dropLast_subset hist hx), ?_⟩
      intro x hx
      rcases List.mem_append.mp hx with hx | hx
      · exact ha x hx
      · have hxe := (by simpa using hx : x = _)
        subst hxe
        exact hh _ (List.mem_of_mem_getLast? hl)
    · refine ⟨hh, ?_⟩
      intro x hx
      rcases List.mem_append.mp hx with hx | hx
      · exact ha x hx
      · have hxe := (by simpa using hx : x = firstCol)
        subst hxe
        exact hP
  · exact ⟨hh, ha⟩

theorem padBarLoop_mem (P : String → Prop) (firstCol : String) (hP : P firstCol) :
    ∀ (fuel : Nat) (hist bar : List String), (∀ x ∈ hist, P x) → (∀ x ∈ bar, P x) →
      (∀ x ∈ (padBarLoop firstCol fuel hist bar).1, P x) ∧
      (∀ x ∈ (padBarLoop firstCol fuel hist bar).2, P x) := by
  intro fuel
  induction fuel with
  | zero => intro hist bar hh hb; exact ⟨hh, hb⟩
  | succ n ih =>
    intro hist bar hh hb
    simp only [padBarLoop]
    split
    · split
      · next hl =>
        refine ih hist.dropLast (bar ++ [_]) (fun x hx => hh x (List.dropLast_subset hist hx)) ?_
        intro x hx
        rcases List.mem_append.mp hx with hx | hx
        · exact hb x hx
        · have hxe := (by simpa using hx : x = _)
          subst hxe
          exact hh _ (List.mem_of_mem_getLast? hl)
      · refine ih hist (bar ++ [firstCol]) hh ?_
        intro x hx
        rcases List.mem_append.mp hx with hx | hx
        · exact hb x hx
        · have hxe := (by simpa using hx : x = firstCol)
          subst hxe
          exact hP
    · exact ⟨hh, hb⟩

theorem v5PaddedCols_mem (df : PdDataFrame) (hne : df.names ≠ []) :
    (∀ x ∈ (v5PaddedCols df).1, x ∈ df.names) ∧
    (∀ x ∈ (v5PaddedCols df).2.1, x ∈ df.names) ∧
    (∀ x ∈ (v5PaddedCols df).2.2, x ∈ df.names) := by
  have hfc : df.names.headD "" ∈ df.names := by
    cases hn : df.names with
    | nil => exact absurd hn hne
    | cons a as => simp
  have hsep := @v5Separate_mem (v5InferColumns df)
  have hsep1 : ∀ x ∈ (v5Separate (v5InferColumns df)).1, x ∈ df.names := by
    intro x hx
    obtain ⟨⟨n, t⟩, hp, he⟩ := List.mem_map.mp (hsep.1 x hx)
    exact he ▸ v5InferColumns_keys_mem hp
  have hsep2 : ∀ x ∈ (v5Separate (v5InferColumns df)).2.1, x ∈ df.names := by
    intro x hx
    obtain ⟨⟨n, t⟩, hp, he⟩ := List.mem_map.mp (hsep.2.1 x hx)
    exact he ▸ v5InferColumns_keys_mem hp
  have hsep3 : ∀ x ∈ (v5Separate (v5InferColumns df)).2.2, x ∈ df.names := by
    intro x hx
    obtain ⟨⟨n, t⟩, hp, he⟩ := List.mem_map.mp (hsep.2.2 x hx)
    exact he ▸ v5InferColumns_keys_mem hp
  have h1 := padHistLoop_mem (· ∈ df.names) _ hfc 6 _ _ hsep1 hsep3
  have h2 := popAngle_mem (· ∈ df.names) _ hfc _ _ h1.1 hsep2
  have h3 := padBarLoop_mem (· ∈ df.names) _ hfc 3 _ _ h2.1 h1.2
  exact ⟨h3.1, h2.2, h3.2⟩

theorem v5ChartLayout_mem {hist angle bar : List String} {layout : List V5Chart}
    (h : v5ChartLayout hist angle bar = some layout) :
    ∀ ch ∈ layout, ch.column ∈ hist ∨ ch.column ∈ angle ∨ ch.column ∈ bar := by
  unfold v5ChartLayout at h
  split at h
  · next h1 h2 h3 h4 h5 rest a1 arest b1 b2 b3 brest =>
    have hl := (Option.some.inj h).symm
    subst hl
    intro ch hch
    simp only [List.mem_cons, List.not_mem_nil, or_false] at hch
    rcases hch with rfl | rfl | rfl | rfl | rfl | rfl | rfl | rfl | rfl <;> simp
  · exact absurd h (by simp)

/-- C5.  Every chart configuration emitted when loading a dataframe —
by `_generate_chart_configs` in the generic loader and by the 3x3
`chart_layout` in the v5 loader — references a column name of the
source dataframe. -/
theorem c5_chart_columns_exist :
    (∀ (df : PdDataFrame) (cfg : ChartConfig),
       cfg ∈ loadDataframeCharts df → cfg.column ∈ df.names) ∧
    (∀ (df : PdDataFrame) (layout : List V5Chart), df.names ≠ [] →
       v5Layout df = some layout → ∀ ch ∈ layout, ch.column ∈ df.names) := by
  constructor
  · intro df cfg hmem
    obtain ⟨p, hp, hcfg⟩ := mem_loadDataframeCharts hmem
    obtain ⟨hcol, _, _⟩ := chartForCol_cases hcfg
    rw [hcol]
    exact List.mem_map.mpr ⟨p, hp, rfl⟩
  · intro df layout hne hsome ch hch
    have hmem := v5PaddedCols_mem df hne
    have hcols := v5ChartLayout_mem
      (by simpa [v5Layout] using hsome) ch hch
    rcases hcols with hx | hx | hx
    · exact hmem.1 _ hx
    · exact hmem.2.1 _ hx
    · exact hmem.2.2 _ hx

/-- A dataframe on which v5's layout construction succeeds: five
numerics, one angle (25 distinct values in `[0, 360]`), three strings. -/
def dfNine : PdDataFrame :=
  ⟨[("n1", .ints .int64 [400, 500]), ("n2", .ints .int64 [400, 500]),
    ("n3", .ints .int64 [400, 500]), ("n4", .ints .int64 [400, 500]),
    ("n5", .ints .int64 [400, 500]),
    ("ang", .ints .int64 ((List.range 25).map Int.ofNat)),
    ("s1", .objs [some "x"]), ("s2", .objs [some "y"]),
    ("s3", .objs [some "z"])]⟩

/-- The v5 layout computed for `dfNine`. -/
def layoutNine : List V5Chart :=
  (v5Layout dfNine).getD []

set_option maxRecDepth 400000 in
/-- C5 (witness), on concrete dataframes for both loaders. -/
theorem c5_chart_columns_exist_witness :
    (ChartConfig.mk "histogram" "n1" "n1 Distribution").column ∈ dfNine.names ∧
      ∀ ch ∈ layoutNine, ch.column ∈ dfNine.names :=
  ⟨c5_chart_columns_exist.1 dfNine (ChartConfig.mk "histogram" "n1" "n1 Distribution")
      (by decide),
   c5_chart_columns_exist.2 dfNine layoutNine (by decide) (by decide)⟩

/-! ## Claim C9: the padding loops do not pad enough -/

/-- A non-empty dataframe with only numeric columns (values chosen
outside `[0, 360]` so none is an angle, none a string). -/
def dfAllNumeric : PdDataFrame :=
  ⟨[("a", .ints .int64 [400, 500]), ("b", .ints .int64 [400, 500]),
    ("c", .ints .int64 [400, 500]), ("d", .ints .int64 [400, 500]),
    ("e", .ints .int64 [400, 500]), ("f", .ints .int64 [400, 500])]⟩

set_option maxRecDepth 400000 in
/-- C9 (refuting evaluation).  The padding loops only ensure
`len(hist_cols) >= 6`, but the layout needs 5 histogram + 1 angle +
3 bar columns.  On a non-empty all-numeric dataframe the angle and bar
loops pop `hist_cols` down to 2 entries, so `hist_cols[4]` in the
`chart_layout` literal raises `IndexError` (the `none` here), contrary
to the claimed invariant that at least 5 remain. -/
theorem c9_padding_insufficient :
    dfAllNumeric.names ≠ [] ∧
      (v5PaddedCols dfAllNumeric).1.length = 2 ∧
      (v5PaddedCols dfAllNumeric).2.2.length = 3 ∧
      v5Layout dfAllNumeric = none := by
  refine ⟨by decide, by decide, by decide, by decide⟩

/-! ## Claim C4: `process_arrow_file` validation and metadata -/

/-- C4.  `process_arrow_file` returns `None` iff some requested column
is missing from the table; otherwise the payload's metadata records the
table's total row count and the requested column list. -/
theorem c4_process_arrow_none_iff (t : ArrowTable) (columns : List String) :
    (process_arrow_file t columns = none ↔ ∃ c ∈ columns, c ∉ t.columnNames) ∧
    (∀ p, process_arrow_file t columns = some p →
      p.metadata.total_rows = t.numRows ∧ p.metadata.columns = columns) := by
  by_cases h : ∀ c ∈ columns, c ∈ t.columnNames
  · constructor
    · simp only [process_arrow_file, if_pos h]
      constructor
      · intro hcontra
        exact absurd hcontra (by simp)
      · intro ⟨c, hc, hnc⟩
        exact absurd (h c hc) hnc
    · intro p hp
      simp only [process_arrow_file, if_pos h, Option.some.injEq] at hp
      rw [← hp]
      exact ⟨rfl, rfl⟩
  · constructor
    · simp only [process_arrow_file, if_neg h]
      push_neg at h
      simpa using h
    · intro p hp
      simp only [process_arrow_file, if_neg h] at hp
      exact Option.noConfusion hp

/-- A concrete Arrow table for the C4 witness. -/
def tArrow : ArrowTable :=
  ⟨3, [("age", .ints .int64 [21, 35, 40]), ("name", .strs ["x", "y", "x"])]⟩

/-- The payload `process_arrow_file` produces for `tArrow`. -/
def pArrow : ArrowPayload :=
  (process_arrow_file tArrow ["age", "name"]).getD ⟨⟨0, []⟩, []⟩

/-- C4 (witness): on `tArrow`, a missing column yields `None`, and the
successful payload's metadata holds the row count and column list. -/
theorem c4_process_arrow_none_iff_witness :
    (process_arrow_file tArrow ["age", "oops"] = none) ∧
      pArrow.metadata.total_rows = tArrow.numRows ∧
      pArrow.metadata.columns = ["age", "name"] :=
  ⟨(c4_process_arrow_none_iff tArrow ["age", "oops"]).1.mpr
      ⟨"oops", by decide, by decide⟩,
   (c4_process_arrow_none_iff tArrow ["age", "name"]).2 pArrow (by decide)⟩

end Leaflet
